import Mathlib

/-!
Verification of the core timeline logic of the lip-sync tool
(`src/lip_sync/main.py`).

Modelling conventions.  Python floats are modelled as exact rationals (`ℚ`).
External effects are modelled as explicit parameters: the exit status and the
standard output of the external aligner process, the successive values drawn
from the random source (`random.uniform`), the audio duration reported by the
probe, and the Python builtin `float` string parser.  Python exceptions are
modelled with `Except`.  The blink labels `"A"`, `"B"`, `"C"` emitted by
`run_blink` are the open, closing and closed phases of a blink cycle; the CSV
mapping later resolves them to image paths.
-/

namespace LipSync

/-- Python exceptions that the modelled code can raise: `valueError` for a
failed tuple unpack or `float` conversion, `assertionError` for the
`assert lip_chunks is not None` in `main`, and `keyError label` for a failed
dict lookup `lips[name]` (the exception carries the missing key). -/
inductive PyError where
  | valueError : PyError
  | assertionError : PyError
  | keyError : String → PyError
deriving DecidableEq

instance {ε α : Type} [DecidableEq ε] [DecidableEq α] :
    DecidableEq (Except ε α) := fun
  | .error e, .error f => decidable_of_iff (e = f) (by simp)
  | .error _, .ok _ => isFalse (by simp)
  | .ok _, .error _ => isFalse (by simp)
  | .ok a, .ok b => decidable_of_iff (a = b) (by simp)

/-- Lines 71-77 of `main.py`: the pairwise scan that turns aligner frames
`(timestamp, label)` into chunks `(label, next_timestamp - timestamp)`.
The final frame has no successor and is dropped. -/
def buildChunks : List (ℚ × String) → List (String × ℚ)
  | (t, n) :: (t', n') :: rest => (n, t' - t) :: buildChunks ((t', n') :: rest)
  | _ => []

/-- Lines 66-69 of `main.py`: `for time, name in rd: frames.append((float(time), name))`.
A row that is not exactly two fields fails the tuple unpack, and a first field
that `float` does not accept raises `ValueError`; either aborts the loop.
`floatParse` models the Python builtin `float`. -/
def parseFrames (floatParse : String → Option ℚ) :
    List (List String) → Except PyError (List (ℚ × String))
  | [] => .ok []
  | row :: rest =>
    match row with
    | [time, name] =>
      match floatParse time with
      | some t => (parseFrames floatParse rest).map (fun fs => (t, name) :: fs)
      | none => .error .valueError
    | _ => .error .valueError

/-- `rowParses floatParse row = true` iff the row is exactly two fields whose
first field parses as a float, i.e. iff the row survives line 68 of `main.py`. -/
def rowParses (floatParse : String → Option ℚ) : List String → Bool
  | [time, _] => (floatParse time).isSome
  | _ => false

/-- Lookup in a Python dict built by inserting the CSV rows in order
(lines 79-84 / 132-137 of `main.py`): the last row with the requested key
wins, and a key that never occurs yields `none`. -/
def dictGet (rows : List (String × String)) (k : String) : Option String :=
  (rows.reverse.find? (fun p => p.1 == k)).map (fun p => p.2)

/-- Lines 86-87 / 139-140 of `main.py`: `chunks[i] = (lips[name], duration)`.
Each label is resolved through the dict; the first absent label raises
`KeyError(name)`. -/
def lookupChunks (rows : List (String × String)) :
    List (String × ℚ) → Except PyError (List (String × ℚ))
  | [] => .ok []
  | (name, d) :: rest =>
    match dictGet rows name with
    | some file => (lookupChunks rows rest).map (fun cs => (file, d) :: cs)
    | none => .error (.keyError name)

/-- `run_rhubarb` (lines 15-89 of `main.py`), with the subprocess modelled by
its exit status `exitZero` and its tab-split standard output `stdoutRows`, and
the already-loaded lipsync CSV rows `lips`.  A non-zero exit is caught and
turned into `None` (modelled `.ok none`); a parse failure or a missing label
propagates as an uncaught exception (modelled `.error`). -/
def run_rhubarb (floatParse : String → Option ℚ) (exitZero : Bool)
    (stdoutRows : List (List String)) (lips : List (String × String)) :
    Except PyError (Option (List (String × ℚ))) :=
  if exitZero then
    match parseFrames floatParse stdoutRows with
    | .error e => .error e
    | .ok frames =>
      match lookupChunks lips (buildChunks frames) with
      | .error e => .error e
      | .ok resolved => .ok (some resolved)
  else .ok none

/-- The loop of `run_blink` (lines 123-130 of `main.py`).  `draws` is the
stream of successive values returned by `random.uniform(min_wait, max_wait)`;
each iteration consumes the head of the stream.  The loop body is translated
literally: while `0 < duration`, clamp the draw to `duration`, emit one
`("A", wait), ("B", 1/24), ("C", 1/24)` cycle and subtract `wait + 2/24`.
The `fuel` argument only bounds the number of iterations; `fuelFor` below
provides enough fuel for every terminating run of the Python loop. -/
def runBlinkChunks : (ℕ → ℚ) → ℕ → ℚ → List (String × ℚ)
  | _, 0, _ => []
  | draws, fuel + 1, duration =>
    if 0 < duration then
      let wait := if draws 0 > duration then duration else draws 0
      ("A", wait) :: ("B", 1/24) :: ("C", 1/24) ::
        runBlinkChunks (fun j => draws (j + 1)) fuel (duration - (wait + 2/24))
    else []

/-- Iteration bound for the blink loop: when every draw is positive, each
iteration shrinks `duration` by more than `1/12`, so `12 * D + 1` iterations
are never reached. -/
def fuelFor (D : ℚ) : ℕ := (⌈12 * D⌉).toNat + 1

/-- The chunk list built by the `while` loop of `run_blink` for audio
duration `D` and random stream `draws`. -/
def run_blink (draws : ℕ → ℚ) (D : ℚ) : List (String × ℚ) :=
  runBlinkChunks draws (fuelFor D) D

/-- `run_blink` (lines 92-142 of `main.py`) end to end: `None` when no blink
file is given, otherwise the loop output with every label resolved through
the blink CSV dict (a missing label raises `KeyError`). -/
def run_blink_full (blink : Option (List (String × String)))
    (draws : ℕ → ℚ) (D : ℚ) : Except PyError (Option (List (String × ℚ))) :=
  match blink with
  | none => .ok none
  | some rows =>
    match lookupChunks rows (run_blink draws D) with
    | .error e => .error e
    | .ok cs => .ok (some cs)

/-- `main` (lines 265-274 of `main.py`): run `run_rhubarb`, assert the result
is not `None`, run `run_blink`, then call `generate_video`.  The `.ok` value
is the pair of chunk lists handed to `generate_video`; `.error` means the run
died before reaching video composition. -/
def mainModel (floatParse : String → Option ℚ) (exitZero : Bool)
    (stdoutRows : List (List String)) (lips : List (String × String))
    (blink : Option (List (String × String))) (draws : ℕ → ℚ) (D : ℚ) :
    Except PyError (List (String × ℚ) × Option (List (String × ℚ))) :=
  match run_rhubarb floatParse exitZero stdoutRows lips with
  | .error e => .error e
  | .ok none => .error .assertionError
  | .ok (some lipChunks) =>
    match run_blink_full blink draws D with
    | .error e => .error e
    | .ok blinkChunks => .ok (lipChunks, blinkChunks)

/-!
Specification-side description of the blink loop, used to state the claim
that the loop emits whole cycles with clamped waits until the accumulated
duration reaches `D`.
-/

/-- The remaining duration at the start of cycle `k` of the blink loop:
`remaining draws D 0 = D`, and cycle `i` consumes
`min (draws i) (remaining i) + 2/24` (see `remaining_succ` below for the
step equation in that form). -/
def remaining (draws : ℕ → ℚ) (D : ℚ) : ℕ → ℚ
  | 0 => D
  | k + 1 =>
    remaining (fun j => draws (j + 1)) (D - (min (draws 0) D + 2/24)) k

/-- Cycle `i` of the blink output as the specification describes it: an open
interval whose wait is the draw clamped to the remaining duration, then a
closing and a closed frame of `1/24` each. -/
def blinkCycle (draws : ℕ → ℚ) (D : ℚ) (i : ℕ) : List (String × ℚ) :=
  [("A", min (draws i) (remaining draws D i)), ("B", 1/24), ("C", 1/24)]

/-- The first `k` cycles of the blink output, in order. -/
def blinkCycles (draws : ℕ → ℚ) (D : ℚ) (k : ℕ) : List (String × ℚ) :=
  (List.range k).flatMap (blinkCycle draws D)

/-! Helper lemmas about `buildChunks`. -/

theorem buildChunks_length : ∀ l : List (ℚ × String),
    (buildChunks l).length = l.length - 1
  | [] => rfl
  | [_] => rfl
  | (t, n) :: (t', n') :: rest => by
    have ih := buildChunks_length ((t', n') :: rest)
    simp only [buildChunks, List.length_cons] at ih ⊢
    omega

theorem buildChunks_getElem? : ∀ (l : List (ℚ × String)) (i : ℕ)
    (t n t' n' : _), l[i]? = some (t, n) → l[i + 1]? = some (t', n') →
    (buildChunks l)[i]? = some (n, t' - t)
  | [], i, t, n, t', n', h1, _ => by simp at h1
  | [x], i, t, n, t', n', h1, h2 => by
    rcases i with _ | j <;> simp at h2
  | (a, b) :: (c, d) :: rest, 0, t, n, t', n', h1, h2 => by
    simp at h1 h2
    obtain ⟨rfl, rfl⟩ := h1
    obtain ⟨rfl, rfl⟩ := h2
    simp [buildChunks]
  | (a, b) :: (c, d) :: rest, j + 1, t, n, t', n', h1, h2 => by
    rw [List.getElem?_cons_succ] at h1 h2
    have ih := buildChunks_getElem? ((c, d) :: rest) j t n t' n' h1 h2
    simpa [buildChunks] using ih

/-- C1: for an aligner output of `n ≥ 2` frames with strictly increasing
timestamps, the phoneme timeline has exactly `n - 1` intervals in input
order; interval `i` is `(label i, timestamp (i+1) - timestamp i)` and every
duration is strictly positive (the final frame is dropped, having no
successor). -/
theorem buildChunks_spec (frames : List (ℚ × String))
    (hlen : 2 ≤ frames.length)
    (hmono : List.Chain' (fun a b => a.1 < b.1) frames) :
    (buildChunks frames).length = frames.length - 1 ∧
    ∀ i t n t' n', frames[i]? = some (t, n) → frames[i + 1]? = some (t', n') →
      (buildChunks frames)[i]? = some (n, t' - t) ∧ 0 < t' - t := by
  refine ⟨buildChunks_length frames, fun i t n t' n' h1 h2 => ?_⟩
  refine ⟨buildChunks_getElem? frames i t n t' n' h1 h2, ?_⟩
  rw [List.getElem?_eq_some_iff] at h1 h2
  obtain ⟨hi, e1⟩ := h1
  obtain ⟨hi', e2⟩ := h2
  have hR := List.chain'_iff_get.mp hmono i (by omega)
  simp only [List.get_eq_getElem] at hR
  rw [e1, e2] at hR
  simpa using hR

/-- Witness for C1 at the concrete scenario from the specification:
`[(0.0,"A"),(0.5,"B"),(1.2,"X")]` yields `[("A",0.5),("B",0.7)]`. -/
theorem buildChunks_spec_witness :
    (2 ≤ ([((0 : ℚ), "A"), (1/2, "B"), (6/5, "X")] : List (ℚ × String)).length ∧
      List.Chain' (fun a b => a.1 < b.1)
        ([((0 : ℚ), "A"), (1/2, "B"), (6/5, "X")] : List (ℚ × String))) ∧
    ((buildChunks [((0 : ℚ), "A"), (1/2, "B"), (6/5, "X")]).length =
        ([((0 : ℚ), "A"), (1/2, "B"), (6/5, "X")] : List (ℚ × String)).length - 1 ∧
      ∀ i t n t' n',
        ([((0 : ℚ), "A"), (1/2, "B"), (6/5, "X")] : List (ℚ × String))[i]? = some (t, n) →
        ([((0 : ℚ), "A"), (1/2, "B"), (6/5, "X")] : List (ℚ × String))[i + 1]? = some (t', n') →
        (buildChunks [((0 : ℚ), "A"), (1/2, "B"), (6/5, "X")])[i]? = some (n, t' - t) ∧
          0 < t' - t) ∧
    buildChunks [((0 : ℚ), "A"), (1/2, "B"), (6/5, "X")] = [("A", 1/2), ("B", 7/10)] :=
  ⟨⟨by norm_num, by norm_num⟩,
    buildChunks_spec _ (by norm_num) (by norm_num),
    by with_unfolding_all decide⟩

/-! Helper lemmas about the blink loop. -/

theorem clamp_eq_min (a d : ℚ) : (if a > d then d else a) = min a d := by
  rcases le_or_lt a d with h | h
  · rw [if_neg (not_lt.mpr h), min_eq_left h]
  · rw [if_pos h, min_eq_right h.le]

theorem remaining_shift (draws : ℕ → ℚ) (D : ℚ) (k : ℕ) :
    remaining (fun j => draws (j + 1)) (remaining draws D 1) k =
      remaining draws D (k + 1) := rfl

/-- The step equation of `remaining` read off the back: cycle `k` consumes
the clamped draw plus `2/24`. -/
theorem remaining_succ : ∀ (k : ℕ) (draws : ℕ → ℚ) (D : ℚ),
    remaining draws D (k + 1) =
      remaining draws D k - (min (draws k) (remaining draws D k) + 2/24)
  | 0, _, _ => rfl
  | k + 1, draws, D =>
    remaining_succ k (fun j => draws (j + 1)) (D - (min (draws 0) D + 2/24))

theorem blinkCycles_succ_cons (draws : ℕ → ℚ) (D : ℚ) (k : ℕ) :
    blinkCycles draws D (k + 1) =
      blinkCycle draws D 0 ++
        blinkCycles (fun j => draws (j + 1)) (remaining draws D 1) k := by
  unfold blinkCycles
  rw [List.range_succ_eq_map, List.flatMap_cons, List.flatMap_map]
  congr 1

theorem lt_fuelFor (D : ℚ) : 12 * D < (fuelFor D : ℚ) := by
  have h1 : (12 : ℚ) * D ≤ (⌈12 * D⌉ : ℚ) := Int.le_ceil _
  have h2 : (⌈12 * D⌉ : ℚ) ≤ ((⌈12 * D⌉).toNat : ℚ) := by
    exact_mod_cast Int.self_le_toNat _
  have h3 : (fuelFor D : ℚ) = ((⌈12 * D⌉).toNat : ℚ) + 1 := by
    rw [fuelFor]; push_cast; ring
  linarith

/-- The blink loop, given enough fuel and a positive random stream, emits
exactly the cycles described by `blinkCycles`: whole cycles while the
remaining duration is positive, stopping as soon as it is not. -/
theorem runBlinkChunks_eq_cycles : ∀ (fuel : ℕ) (draws : ℕ → ℚ) (D : ℚ),
    (∀ j, 0 < draws j) → 12 * D < (fuel : ℚ) →
    ∃ k, runBlinkChunks draws fuel D = blinkCycles draws D k ∧
      (∀ i < k, 0 < remaining draws D i) ∧ remaining draws D k ≤ 0
  | 0, draws, D, _, hfuel => by
    refine ⟨0, rfl, fun i hi => absurd hi (Nat.not_lt_zero i), ?_⟩
    show D ≤ 0
    push_cast at hfuel
    linarith
  | fuel + 1, draws, D, hpos, hfuel => by
    have hunfold : runBlinkChunks draws (fuel + 1) D =
        if 0 < D then
          ("A", if draws 0 > D then D else draws 0) :: ("B", 1/24) ::
            ("C", 1/24) ::
            runBlinkChunks (fun j => draws (j + 1)) fuel
              (D - ((if draws 0 > D then D else draws 0) + 2/24))
        else [] := rfl
    rcases lt_or_le 0 D with hD | hD
    · have hmin : 0 < min (draws 0) D := lt_min (hpos 0) hD
      have hrem1 : remaining draws D 1 = D - (min (draws 0) D + 2/24) := rfl
      have hfuel' : 12 * remaining draws D 1 < (fuel : ℚ) := by
        rw [hrem1]
        push_cast at hfuel
        linarith
      obtain ⟨k, hEq, hPos, hEnd⟩ :=
        runBlinkChunks_eq_cycles fuel (fun j => draws (j + 1))
          (remaining draws D 1) (fun j => hpos (j + 1)) hfuel'
      refine ⟨k + 1, ?_, ?_, ?_⟩
      · rw [hunfold, if_pos hD, clamp_eq_min, blinkCycles_succ_cons]
        have hEq' : runBlinkChunks (fun j => draws (j + 1)) fuel
            (D - (min (draws 0) D + 2/24)) =
            blinkCycles (fun j => draws (j + 1)) (remaining draws D 1) k := hEq
        rw [hEq']
        rfl
      · intro i hi
        rcases i with _ | j
        · exact hD
        · exact hPos j (by omega)
      · exact hEnd
    · refine ⟨0, ?_, fun i hi => absurd hi (Nat.not_lt_zero i), hD⟩
      rw [hunfold, if_neg (not_lt.mpr hD)]
      rfl

/-- `run_blink` with a positive random stream is `blinkCycles` for the number
of cycles `k` at which the remaining duration first becomes nonpositive. -/
theorem run_blink_cycles (draws : ℕ → ℚ) (D : ℚ) (hpos : ∀ j, 0 < draws j) :
    ∃ k, run_blink draws D = blinkCycles draws D k ∧
      (∀ i < k, 0 < remaining draws D i) ∧ remaining draws D k ≤ 0 :=
  runBlinkChunks_eq_cycles (fuelFor D) draws D hpos (lt_fuelFor D)

theorem blinkCycles_sum (draws : ℕ → ℚ) (D : ℚ) : ∀ k : ℕ,
    ((blinkCycles draws D k).map Prod.snd).sum = D - remaining draws D k
  | 0 => by simp [blinkCycles, remaining]
  | k + 1 => by
    have ih := blinkCycles_sum draws D k
    unfold blinkCycles at ih ⊢
    rw [List.range_succ, List.flatMap_append, List.map_append, List.sum_append,
      ih]
    simp only [List.flatMap_cons, List.flatMap_nil, List.append_nil, blinkCycle]
    rw [remaining_succ]
    show D - remaining draws D k +
        (min (draws k) (remaining draws D k) + (1/24 + (1/24 + 0))) =
      D - (remaining draws D k - (min (draws k) (remaining draws D k) + 2/24))
    ring

theorem blinkCycles_mem (draws : ℕ → ℚ) (D : ℚ) (k : ℕ) (p : String × ℚ)
    (hp : p ∈ blinkCycles draws D k) :
    (∃ i, i < k ∧ p = ("A", min (draws i) (remaining draws D i))) ∨
      p = ("B", 1/24) ∨ p = ("C", 1/24) := by
  rw [blinkCycles, List.mem_flatMap] at hp
  obtain ⟨i, hi, hmem⟩ := hp
  rw [List.mem_range] at hi
  simp only [blinkCycle, List.mem_cons, List.not_mem_nil, or_false] at hmem
  rcases hmem with h | h | h
  · exact Or.inl ⟨i, hi, h⟩
  · exact Or.inr (Or.inl h)
  · exact Or.inr (Or.inr h)

theorem remaining_succ_ge (draws : ℕ → ℚ) (D : ℚ) (k : ℕ) :
    -(2/24) ≤ remaining draws D (k + 1) := by
  have h : min (draws k) (remaining draws D k) ≤ remaining draws D k :=
    min_le_right _ _
  rw [remaining_succ]
  linarith

/-- One unfolding step of the blink loop. -/
theorem runBlinkChunks_succ (draws : ℕ → ℚ) (fuel : ℕ) (D : ℚ) :
    runBlinkChunks draws (fuel + 1) D =
      if 0 < D then
        ("A", if draws 0 > D then D else draws 0) :: ("B", 1/24) ::
          ("C", 1/24) ::
          runBlinkChunks (fun j => draws (j + 1)) fuel
            (D - ((if draws 0 > D then D else draws 0) + 2/24))
      else [] := rfl

/-- C2: for `D > 0`, `0 < min_wait ≤ max_wait` and every draw in
`[min_wait, max_wait]`, the blink output is exactly a sequence of repeating
triples `("A", wait), ("B", 1/24), ("C", 1/24)` (the open, closing and
closed phases), where the wait of cycle `i` is the draw clamped to the
remaining duration; cycles are generated exactly while the accumulated
duration (each cycle consuming `wait + 2/24`) is still below `D`, and
generation stops as soon as it reaches or exceeds `D`. -/
theorem run_blink_spec (draws : ℕ → ℚ) (D mw Mw : ℚ)
    (hD : 0 < D) (hmw : 0 < mw) (hmM : mw ≤ Mw)
    (hdr : ∀ i, mw ≤ draws i ∧ draws i ≤ Mw) :
    ∃ k, 0 < k ∧
      run_blink draws D = blinkCycles draws D k ∧
      (∀ i < k, 0 < remaining draws D i) ∧
      remaining draws D k ≤ 0 ∧
      ((blinkCycles draws D k).map Prod.snd).sum = D - remaining draws D k := by
  have hpos : ∀ j, 0 < draws j := fun j => lt_of_lt_of_le hmw (hdr j).1
  obtain ⟨k, hEq, hPos, hEnd⟩ := run_blink_cycles draws D hpos
  have hk : 0 < k := by
    rcases Nat.eq_zero_or_pos k with rfl | h
    · exact absurd hEnd (not_le.mpr hD)
    · exact h
  exact ⟨k, hk, hEq, hPos, hEnd, blinkCycles_sum draws D k⟩

/-- Witness for C2 at `D = 5`, `min_wait = max_wait = 2`, all draws `2`. -/
theorem run_blink_spec_witness :
    ((0 : ℚ) < 5 ∧ (0 : ℚ) < 2 ∧ (2 : ℚ) ≤ 2 ∧
      (∀ i : ℕ, (2 : ℚ) ≤ (fun _ : ℕ => (2 : ℚ)) i ∧
        (fun _ : ℕ => (2 : ℚ)) i ≤ 2)) ∧
    ∃ k, 0 < k ∧
      run_blink (fun _ => 2) 5 = blinkCycles (fun _ => 2) 5 k ∧
      (∀ i < k, 0 < remaining (fun _ => 2) 5 i) ∧
      remaining (fun _ => 2) 5 k ≤ 0 ∧
      ((blinkCycles (fun _ => 2) 5 k).map Prod.snd).sum =
        5 - remaining (fun _ => 2) 5 k :=
  ⟨⟨by norm_num, by norm_num, le_refl 2, fun i => ⟨le_refl 2, le_refl 2⟩⟩,
    run_blink_spec (fun _ => 2) 5 2 2 (by norm_num) (by norm_num) (le_refl 2)
      (fun i => ⟨le_refl 2, le_refl 2⟩)⟩

/-- C3: under the same hypotheses, the cumulative output duration is at
least `D - (max_wait + 2/24)`, no open duration is negative, and every open
duration lies in `[0, max_wait]`. -/
theorem run_blink_bounds (draws : ℕ → ℚ) (D mw Mw : ℚ)
    (hD : 0 < D) (hmw : 0 < mw) (hmM : mw ≤ Mw)
    (hdr : ∀ i, mw ≤ draws i ∧ draws i ≤ Mw) :
    D - (Mw + 2/24) ≤ ((run_blink draws D).map Prod.snd).sum ∧
    ∀ p ∈ run_blink draws D, p.1 = "A" → 0 ≤ p.2 ∧ p.2 ≤ Mw := by
  have hpos : ∀ j, 0 < draws j := fun j => lt_of_lt_of_le hmw (hdr j).1
  have hMw : 0 < Mw := lt_of_lt_of_le hmw hmM
  obtain ⟨k, hEq, hPos, hEnd⟩ := run_blink_cycles draws D hpos
  constructor
  · rw [hEq, blinkCycles_sum]
    linarith
  · intro p hp hA
    rw [hEq] at hp
    rcases blinkCycles_mem draws D k p hp with ⟨i, hik, rfl⟩ | rfl | rfl
    · have h0 : 0 < min (draws i) (remaining draws D i) :=
        lt_min (hpos i) (hPos i hik)
      exact ⟨le_of_lt h0, le_trans (min_le_left _ _) (hdr i).2⟩
    · exact absurd hA (by decide)
    · exact absurd hA (by decide)

/-- Witness for C3 at `D = 5`, `min_wait = max_wait = 2`, all draws `2`. -/
theorem run_blink_bounds_witness :
    ((0 : ℚ) < 5 ∧ (0 : ℚ) < 2 ∧ (2 : ℚ) ≤ 2 ∧
      (∀ i : ℕ, (2 : ℚ) ≤ (fun _ : ℕ => (2 : ℚ)) i ∧
        (fun _ : ℕ => (2 : ℚ)) i ≤ 2)) ∧
    ((5 : ℚ) - (2 + 2/24) ≤
        ((run_blink (fun _ => 2) 5).map Prod.snd).sum ∧
      ∀ p ∈ run_blink (fun _ => 2) 5, p.1 = "A" → 0 ≤ p.2 ∧ p.2 ≤ 2) :=
  ⟨⟨by norm_num, by norm_num, le_refl 2, fun i => ⟨le_refl 2, le_refl 2⟩⟩,
    run_blink_bounds (fun _ => 2) 5 2 2 (by norm_num) (by norm_num)
      (le_refl 2) (fun i => ⟨le_refl 2, le_refl 2⟩)⟩

/-- C10: under the same hypotheses, the cumulative output duration lies in
`[D, D + 2/24]`: the output always covers `D`, and the overshoot is at most
the `2/24` cost of one closing-plus-closed pair. -/
theorem run_blink_total (draws : ℕ → ℚ) (D mw Mw : ℚ)
    (hD : 0 < D) (hmw : 0 < mw) (hmM : mw ≤ Mw)
    (hdr : ∀ i, mw ≤ draws i ∧ draws i ≤ Mw) :
    D ≤ ((run_blink draws D).map Prod.snd).sum ∧
    ((run_blink draws D).map Prod.snd).sum ≤ D + 2/24 := by
  have hpos : ∀ j, 0 < draws j := fun j => lt_of_lt_of_le hmw (hdr j).1
  obtain ⟨k, hEq, hPos, hEnd⟩ := run_blink_cycles draws D hpos
  have hk : 0 < k := by
    rcases Nat.eq_zero_or_pos k with rfl | h
    · exact absurd hEnd (not_le.mpr hD)
    · exact h
  obtain ⟨k', rfl⟩ : ∃ k', k = k' + 1 := ⟨k - 1, by omega⟩
  have hge := remaining_succ_ge draws D k'
  rw [hEq, blinkCycles_sum]
  constructor <;> linarith

/-- Witness for C10 at `D = 5`, `min_wait = max_wait = 2`, all draws `2`. -/
theorem run_blink_total_witness :
    ((0 : ℚ) < 5 ∧ (0 : ℚ) < 2 ∧ (2 : ℚ) ≤ 2 ∧
      (∀ i : ℕ, (2 : ℚ) ≤ (fun _ : ℕ => (2 : ℚ)) i ∧
        (fun _ : ℕ => (2 : ℚ)) i ≤ 2)) ∧
    ((5 : ℚ) ≤ ((run_blink (fun _ => 2) 5).map Prod.snd).sum ∧
      ((run_blink (fun _ => 2) 5).map Prod.snd).sum ≤ 5 + 2/24) :=
  ⟨⟨by norm_num, by norm_num, le_refl 2, fun i => ⟨le_refl 2, le_refl 2⟩⟩,
    run_blink_total (fun _ => 2) 5 2 2 (by norm_num) (by norm_num)
      (le_refl 2) (fun i => ⟨le_refl 2, le_refl 2⟩)⟩

/-- C5 counterexample: with `D = 5` and every draw equal to `2`, the final
clamped open interval of the blink output lasts exactly `5/6` of a second,
and `5/6` is strictly greater than the `0.833` bound stated by the claim. -/
theorem run_blink_scenario_cex :
    (run_blink (fun _ => 2) 5)[6]? = some ("A", 5/6) ∧
      ¬((5 : ℚ)/6 ≤ 833/1000) := by
  with_unfolding_all decide

/-- C5 amended: with `D = 5` and every draw equal to `2`, the output is
exactly two full cycles `("A", 2), ("B", 1/24), ("C", 1/24)` covering
`25/6` (≈ 4.1667) seconds, followed by one final clamped cycle whose open
duration is exactly `5/6` (≈ 0.8333, in particular at most `0.834`). -/
theorem run_blink_scenario :
    run_blink (fun _ => 2) 5 =
      [("A", 2), ("B", 1/24), ("C", 1/24), ("A", 2), ("B", 1/24),
        ("C", 1/24), ("A", 5/6), ("B", 1/24), ("C", 1/24)] ∧
    (((run_blink (fun _ => 2) 5).take 6).map Prod.snd).sum = 25/6 ∧
    (5 : ℚ)/6 ≤ 834/1000 := by
  with_unfolding_all decide

/-- C9: for a nonpositive audio duration the blink loop emits nothing, and
the full `run_blink` with a blink mapping returns an empty chunk list. -/
theorem run_blink_nonpos (draws : ℕ → ℚ) (D mw Mw : ℚ)
    (rows : List (String × String)) (hD : D ≤ 0) (hmw : 0 < mw)
    (hmM : mw ≤ Mw) (hdr : ∀ i, mw ≤ draws i ∧ draws i ≤ Mw) :
    run_blink draws D = [] ∧
    run_blink_full (some rows) draws D = .ok (some []) := by
  have h1 : run_blink draws D = [] := by
    rw [run_blink, fuelFor, runBlinkChunks_succ, if_neg (not_lt.mpr hD)]
  exact ⟨h1, by simp [run_blink_full, h1, lookupChunks]⟩

/-- Witness for C9 at `D = 0`, `min_wait = max_wait = 2`, all draws `2`. -/
theorem run_blink_nonpos_witness :
    ((0 : ℚ) ≤ 0 ∧ (0 : ℚ) < 2 ∧ (2 : ℚ) ≤ 2 ∧
      (∀ i : ℕ, (2 : ℚ) ≤ (fun _ : ℕ => (2 : ℚ)) i ∧
        (fun _ : ℕ => (2 : ℚ)) i ≤ 2)) ∧
    (run_blink (fun _ => 2) 0 = [] ∧
      run_blink_full (some []) (fun _ => 2) 0 = .ok (some [])) :=
  ⟨⟨le_refl 0, by norm_num, le_refl 2, fun i => ⟨le_refl 2, le_refl 2⟩⟩,
    run_blink_nonpos (fun _ => 2) 0 2 2 [] (le_refl 0) (by norm_num)
      (le_refl 2) (fun i => ⟨le_refl 2, le_refl 2⟩)⟩

/-! Helper lemmas about parsing and label resolution. -/

theorem parseFrames_error (fp : String → Option ℚ) :
    ∀ rows : List (List String),
    (∃ row ∈ rows, rowParses fp row = false) →
    parseFrames fp rows = .error .valueError
  | [], h => by simp at h
  | row :: rest, h => by
    match row with
    | [time, name] =>
      cases hfp : fp time with
      | none => simp [parseFrames, hfp]
      | some t =>
        have hrest : ∃ r ∈ rest, rowParses fp r = false := by
          rcases h with ⟨r, hr, hfalse⟩
          rcases List.mem_cons.mp hr with rfl | hmem
          · rw [rowParses, hfp] at hfalse
            simp at hfalse
          · exact ⟨r, hmem, hfalse⟩
        simp [parseFrames, hfp, parseFrames_error fp rest hrest, Except.map]
    | [] => simp [parseFrames]
    | [t] => simp [parseFrames]
    | t :: x :: y :: zs => simp [parseFrames]

theorem lookupChunks_missing (rows : List (String × String)) :
    ∀ chunks : List (String × ℚ),
    (∃ p ∈ chunks, dictGet rows p.1 = none) →
    ∃ l, dictGet rows l = none ∧ (∃ p ∈ chunks, p.1 = l) ∧
      lookupChunks rows chunks = .error (.keyError l)
  | [], h => by simp at h
  | (name, d) :: rest, h => by
    cases hd : dictGet rows name with
    | none =>
      exact ⟨name, hd, ⟨(name, d), List.mem_cons_self _ _, rfl⟩,
        by simp [lookupChunks, hd]⟩
    | some file =>
      have hrest : ∃ p ∈ rest, dictGet rows p.1 = none := by
        rcases h with ⟨p, hp, hnone⟩
        rcases List.mem_cons.mp hp with rfl | hmem
        · rw [hd] at hnone
          cases hnone
        · exact ⟨p, hmem, hnone⟩
      obtain ⟨l, hl, ⟨p, hp, hpl⟩, hEq⟩ := lookupChunks_missing rows rest hrest
      exact ⟨l, hl, ⟨p, List.mem_cons_of_mem _ hp, hpl⟩,
        by simp [lookupChunks, hd, hEq, Except.map]⟩

/-- C4: whenever the aligner process exits non-zero, `run_rhubarb` returns
the failure value `None` and `main` dies on its assertion; whenever the
aligner output has a row that is not a tab-separated `(float, string)` pair,
`run_rhubarb` raises `ValueError` and `main` dies with it.  In both cases
the run is fatal: video composition is never reached. -/
theorem run_rhubarb_alignment_failure :
    (∀ (fp : String → Option ℚ) stdoutRows lips blink draws (D : ℚ),
      run_rhubarb fp false stdoutRows lips = .ok none ∧
      mainModel fp false stdoutRows lips blink draws D =
        .error .assertionError) ∧
    (∀ (fp : String → Option ℚ) stdoutRows lips blink draws (D : ℚ),
      (∃ row ∈ stdoutRows, rowParses fp row = false) →
      run_rhubarb fp true stdoutRows lips = .error .valueError ∧
      mainModel fp true stdoutRows lips blink draws D =
        .error .valueError) := by
  constructor
  · intro fp stdoutRows lips blink draws D
    constructor
    · simp [run_rhubarb]
    · simp [mainModel, run_rhubarb]
  · intro fp stdoutRows lips blink draws D h
    have hp := parseFrames_error fp stdoutRows h
    constructor
    · simp [run_rhubarb, hp]
    · simp [mainModel, run_rhubarb, hp]

/-- Witness for C4: the single-field row `["x"]` cannot be unpacked as
`(float, string)`, and a non-zero exit is fatal on any input. -/
theorem run_rhubarb_alignment_failure_witness :
    (∃ row ∈ [["x"]], rowParses (fun _ => (none : Option ℚ)) row = false) ∧
    run_rhubarb (fun _ => none) true [["x"]] [] = .error .valueError ∧
    mainModel (fun _ => none) true [["x"]] [] none (fun _ => 1) 1 =
      .error .valueError ∧
    run_rhubarb (fun _ => none) false [["x"]] [] = .ok none ∧
    mainModel (fun _ => none) false [["x"]] [] none (fun _ => 1) 1 =
      .error .assertionError := by
  have h : ∃ row ∈ [["x"]], rowParses (fun _ => (none : Option ℚ)) row = false := by
    with_unfolding_all decide
  refine ⟨h, ?_, ?_, ?_, ?_⟩
  · exact (run_rhubarb_alignment_failure.2 _ _ _ none (fun _ => 1) 1 h).1
  · exact (run_rhubarb_alignment_failure.2 _ _ _ none (fun _ => 1) 1 h).2
  · exact (run_rhubarb_alignment_failure.1 _ _ _ none (fun _ => 1) 1).1
  · exact (run_rhubarb_alignment_failure.1 _ _ _ none (fun _ => 1) 1).2

/-- C6: if some timeline label is absent from the CSV mapping dict, the
resolution step raises a `KeyError` carrying a missing label of the
timeline: the error is fatal and identifiable, and it names the offending
label. -/
theorem lookup_missing_label (rows : List (String × String))
    (chunks : List (String × ℚ))
    (h : ∃ p ∈ chunks, dictGet rows p.1 = none) :
    ∃ l, dictGet rows l = none ∧ (∃ p ∈ chunks, p.1 = l) ∧
      lookupChunks rows chunks = .error (.keyError l) :=
  lookupChunks_missing rows chunks h

/-- Witness for C6: the label `"X"` is absent from the empty mapping. -/
theorem lookup_missing_label_witness :
    (∃ p ∈ [(("X" : String), (1 : ℚ))], dictGet [] p.1 = none) ∧
    ∃ l, dictGet [] l = none ∧
      (∃ p ∈ [(("X" : String), (1 : ℚ))], p.1 = l) ∧
      lookupChunks [] [("X", 1)] = .error (.keyError l) :=
  ⟨by with_unfolding_all decide,
    lookup_missing_label [] [("X", 1)] (by with_unfolding_all decide)⟩

/-- C7 (failing input): the aligner exits zero with an empty output, so the
phoneme timeline is empty; yet `main` signals no failure at all — the empty
list passes the `assert lip_chunks is not None` check and video generation
is reached with an empty chunk list. -/
theorem mainModel_empty_timeline_no_failure :
    mainModel (fun _ => none) true [] [] none (fun _ => 1) 1 =
      .ok ([], none) := by
  with_unfolding_all decide

/-- C8: an aligner output that parses to 0 or 1 frames yields an empty
timeline and `run_rhubarb` succeeds without any error. -/
theorem run_rhubarb_few_frames (fp : String → Option ℚ)
    (stdoutRows : List (List String)) (lips : List (String × String))
    (frames : List (ℚ × String))
    (hp : parseFrames fp stdoutRows = .ok frames)
    (hlen : frames.length ≤ 1) :
    buildChunks frames = [] ∧
    run_rhubarb fp true stdoutRows lips = .ok (some []) := by
  have hb : buildChunks frames = [] := by
    match frames, hlen with
    | [], _ => rfl
    | [x], _ => rfl
    | x :: y :: rest, h => simp at h
  refine ⟨hb, ?_⟩
  simp [run_rhubarb, hp, hb, lookupChunks]

/-- Witness for C8 at a one-frame aligner output. -/
theorem run_rhubarb_few_frames_witness :
    (parseFrames (fun _ => some 0) [["0", "A"]] = .ok [((0 : ℚ), "A")] ∧
      ([((0 : ℚ), "A")] : List (ℚ × String)).length ≤ 1) ∧
    (buildChunks [((0 : ℚ), "A")] = [] ∧
      run_rhubarb (fun _ => some 0) true [["0", "A"]] [] = .ok (some [])) :=
  ⟨⟨by with_unfolding_all decide, by decide⟩,
    run_rhubarb_few_frames (fun _ => some 0) [["0", "A"]] [] [(0, "A")]
      (by with_unfolding_all decide) (by decide)⟩

end LipSync
